import Mathlib

/-!
Verification development for the pylate-rs encoding-and-scoring pipeline
(`src/error.rs`, `src/model.rs`, `src/wasm.rs`).

Modelling conventions:
* `f32` values are modelled as exact numbers: the Scorer (which is pure
  arithmetic) over `ℚ`, the encoding pipeline over `ℝ` (the L2 norm needs a
  real square root).
* Tensors are nested lists: a `[batch, seq, dim]` tensor is a
  `List (List (List ℝ))`; candle's shape metadata is recovered from the
  nesting (the pipeline only ever builds rectangular values).
* The Scorer works on total index functions `ℕ → ℕ → ℕ → ℚ` with the dims
  carried separately, mirroring candle's broadcasting ops.
* Fallible Rust (`Result<_, ColbertError>`) becomes `Except ColbertError _`.
* External collaborators (the subword tokenizer, the transformer forward
  pass + linear projection, the hierarchical pooling reducer) are parameters
  of the functions that call them, constrained only by their documented
  contracts.
-/

/-- The error enum of `src/error.rs` (`ColbertError`), restricted to the
variants the modelled pipeline can produce: `Candle` wraps a candle error,
`Operation` is the custom operational error. -/
inductive ColbertError where
  | candle (msg : String) : ColbertError
  | operation (msg : String) : ColbertError
deriving DecidableEq

/-- A `[batch, seq]` integer matrix (token ids, attention mask, type ids). -/
abbrev Mat : Type := List (List ℕ)

/-- A `[batch, seq, dim]` float tensor, values modelled as reals. -/
abbrev T3 : Type := List (List (List ℝ))

/-- Fuel-indexed worker for `chunksOf`; the fuel is an upper bound on the
list length, so the recursion is structural (and kernel-reducible). -/
def chunksOfAux (n : ℕ) : ℕ → List α → List (List α)
  | 0, _ => []
  | _, [] => []
  | fuel + 1, x :: xs => (x :: xs.take (n - 1)) :: chunksOfAux n fuel (xs.drop (n - 1))

/-- Rust's `slice::chunks(n)`: contiguous chunks of at most `n` elements in
order, last chunk possibly shorter. (`chunks(0)` panics in Rust; here the
junk value `[]` is returned — no claim exercises a zero chunk size.) -/
def chunksOf (n : ℕ) (l : List α) : List (List α) :=
  if n = 0 then [] else chunksOfAux n l.length l

/-- Rust's `collect::<Result<Vec<_>, _>>()`: apply `f` to every element in
order, stopping at the first error (matching on each result models the
`?` early return). -/
def collectE (f : α → Except ε β) : List α → Except ε (List β)
  | [] => .ok []
  | a :: as =>
    match f a with
    | .error e => .error e
    | .ok b =>
      match collectE f as with
      | .error e => .error e
      | .ok bs => .ok (b :: bs)

section Scorer

/-- Broadcast index resolution: an axis of size 1 always reads position 0
(candle's broadcasting rule for batch axes). -/
def bcastIdx (n i : ℕ) : ℕ := if n = 1 then 0 else i

/-- `Tensor::transpose(1, 2)` on a rank-3 tensor. -/
def transpose12 (t : ℕ → ℕ → ℕ → ℚ) : ℕ → ℕ → ℕ → ℚ :=
  fun b i j => t b j i

/-- `Tensor::unsqueeze(1)` on a rank-3 tensor: insert a size-1 axis at
position 1. -/
def unsqueeze1 (t : ℕ → ℕ → ℕ → ℚ) : ℕ → ℕ → ℕ → ℕ → ℚ :=
  fun a _ c d => t a c d

/-- `Tensor::unsqueeze(0)` on a rank-3 tensor: insert a size-1 axis at
position 0. -/
def unsqueeze0 (t : ℕ → ℕ → ℕ → ℚ) : ℕ → ℕ → ℕ → ℕ → ℚ :=
  fun _ b c d => t b c d

/-- `Tensor::broadcast_matmul` on rank-4 tensors `[a1, a2, m, k]` and
`[b1, b2, k, n]`, broadcasting over the two leading batch axes; `k` is the
contracted dimension. -/
def broadcast_matmul (k a1 a2 b1 b2 : ℕ) (A B : ℕ → ℕ → ℕ → ℕ → ℚ) :
    ℕ → ℕ → ℕ → ℕ → ℚ :=
  fun i j r c =>
    ∑ x ∈ Finset.range k,
      A (bcastIdx a1 i) (bcastIdx a2 j) r x * B (bcastIdx b1 i) (bcastIdx b2 j) x c

/-- Maximum of a list by left fold, as candle's `max` reduction over a
non-empty axis computes it (`listMax [] = 0` is junk: candle errors on an
empty reduction axis, and no claim reaches that case). -/
def listMax : List ℚ → ℚ
  | [] => 0
  | a :: l => l.foldl max a

/-- `Tensor::max(3)` on a rank-4 tensor whose axis 3 has size `dt`. -/
def maxdim3 (dt : ℕ) (t : ℕ → ℕ → ℕ → ℕ → ℚ) : ℕ → ℕ → ℕ → ℚ :=
  fun i j s => listMax ((List.range dt).map (t i j s))

/-- `Tensor::sum(2)` on a rank-3 tensor whose axis 2 has size `qt`. -/
def sumdim2 (qt : ℕ) (t : ℕ → ℕ → ℕ → ℚ) : ℕ → ℕ → ℚ :=
  fun i j => ∑ s ∈ Finset.range qt, t i j s

/-- `ColBERT::raw_similarity` (`src/model.rs:340-349`): unsqueeze the query
tensor at 1, transpose the document tensor at (1,2) and unsqueeze it at 0,
then broadcast-matmul, giving `[nq, nd, q_tokens, d_tokens]`. `Q` is
`[nq, qt, dim]`, `D` is `[nd, dt, dim]`. -/
def raw_similarity (nq nd dim : ℕ) (Q D : ℕ → ℕ → ℕ → ℚ) : ℕ → ℕ → ℕ → ℕ → ℚ :=
  broadcast_matmul dim nq 1 1 nd (unsqueeze1 Q) (unsqueeze0 (transpose12 D))

/-- `ColBERT::similarity` (`src/model.rs:322-337`): the same broadcast
matmul, then `max` over axis 3 (document tokens) and `sum` over axis 2
(query tokens), giving the `[nq, nd]` score matrix. -/
def similarity (nq nd qt dt dim : ℕ) (Q D : ℕ → ℕ → ℕ → ℚ) : ℕ → ℕ → ℚ :=
  let scores := broadcast_matmul dim nq 1 1 nd (unsqueeze1 Q) (unsqueeze0 (transpose12 D))
  sumdim2 qt (maxdim3 dt scores)

end Scorer

section TokenizationPolicy

/-- The `tokenizers` crate's padding strategy, as configured in
`ColBERT::tokenize` (`src/model.rs:381-395`): fixed-length padding for
queries, batch-longest padding for documents. -/
inductive PaddingStrategy where
  | fixed (n : ℕ) : PaddingStrategy
  | batchLongest : PaddingStrategy

/-- The fields of `tokenizers::PaddingParams` that `ColBERT::tokenize`
sets; the others keep the library defaults (pad id 0, pad type id 0). -/
structure PaddingParams where
  strategy : PaddingStrategy
  pad_id : ℕ
  pad_token : String

/-- One encoding produced by the external tokenizer for one text: token
ids, attention mask and token type ids, all of equal length. -/
structure TokEncoding where
  ids : List ℕ
  attention : List ℕ
  type_ids : List ℕ

/-- Pad one truncated encoding (a list of `(id, type_id)` tokens) to length
`n`: real tokens get attention 1, padding positions get `pad_id`, attention
0 and type id 0 (the library's `pad_type_id` default). -/
def padTo (pp : PaddingParams) (n : ℕ) (e : List (ℕ × ℕ)) : TokEncoding :=
  { ids := e.map Prod.fst ++ List.replicate (n - e.length) pp.pad_id
    attention := List.replicate e.length 1 ++ List.replicate (n - e.length) 0
    type_ids := e.map Prod.snd ++ List.replicate (n - e.length) 0 }

/-- Modelled from the spec: the external `tokenizers` library's
`encode_batch` with truncation and padding configured, which is not code of
this repository. Following the spec's contract for the Tokenizer Adapter,
`tok` gives each text's raw `(token id, type id)` sequence; truncation caps
every sequence at `max_length`; `Fixed n` padding pads every sequence to
`n` with the configured pad id, `BatchLongest` pads to the longest
truncated sequence of the batch; the attention mask marks real tokens 1
and padding 0. -/
def encode_batch (tok : String → List (ℕ × ℕ)) (max_length : ℕ)
    (pp : PaddingParams) (texts : List String) : List TokEncoding :=
  let truncated := texts.map (fun s => (tok s).take max_length)
  match pp.strategy with
  | .fixed n => truncated.map (padTo pp n)
  | .batchLongest =>
      let m := (truncated.map List.length).foldl Nat.max 0
      truncated.map (padTo pp m)

/-- The configuration fields of the `ColBERT` struct
(`src/model.rs:54-70`). `query_pre` and `document_pre` model the source's
`query_prefix` and `document_prefix` strings. -/
structure EncodingConfig where
  query_pre : String
  document_pre : String
  mask_token : String
  mask_token_id : ℕ
  do_query_expansion : Bool
  attend_to_expansion_tokens : Bool
  query_length : ℕ
  document_length : ℕ
  batch_size : ℕ

/-- The configuration logic of `ColBERT::new` (`src/model.rs:146-167`):
`attend_to_expansion_tokens` is forced false when `do_query_expansion` is
false, and the optional lengths and batch size default to 32 / 180 / 32.
(The weight, config and tokenizer parsing of `new` is loading glue outside
the modelled core; `mask_token_id` stands for the vocabulary lookup of
`mask_token`.) -/
def colbertNew (query_pre document_pre mask_token : String) (mask_token_id : ℕ)
    (do_query_expansion attend_to_expansion_tokens : Bool)
    (query_length document_length batch_size : Option ℕ) : EncodingConfig :=
  { query_pre := query_pre
    document_pre := document_pre
    mask_token := mask_token
    mask_token_id := mask_token_id
    do_query_expansion := do_query_expansion
    attend_to_expansion_tokens :=
      if !do_query_expansion then false else attend_to_expansion_tokens
    query_length := query_length.getD 32
    document_length := document_length.getD 180
    batch_size := batch_size.getD 32 }

/-- `ColBERT::tokenize` (`src/model.rs:352-429`): choose prefix and maximum
length by `is_query`, prepend the prefix to every text, configure
truncation to `max_length` and padding (fixed-to-`query_length` with the
mask token for queries, batch-longest for documents), run the external
tokenizer, error when it returns no encodings, then collect the id /
attention / type-id matrices; for queries with
`attend_to_expansion_tokens`, replace the attention mask by all ones.
(The source flattens the rows and rebuilds the matrices through
`Tensor::from_vec` with the first row's length; after padding all rows have
equal length, so that round trip is the identity and the rows are kept
directly here.) -/
def tokenize (cfg : EncodingConfig) (tok : String → List (ℕ × ℕ))
    (texts : List String) (is_query : Bool) :
    Except ColbertError (Mat × Mat × Mat) :=
  let pm := if is_query then (cfg.query_pre, cfg.query_length)
            else (cfg.document_pre, cfg.document_length)
  let texts_with_pre := texts.map (fun text => pm.1 ++ text)
  let padding_params : PaddingParams :=
    if is_query then ⟨.fixed pm.2, cfg.mask_token_id, cfg.mask_token⟩
    else ⟨.batchLongest, 0, "[PAD]"⟩
  let encodings := encode_batch tok pm.2 padding_params texts_with_pre
  if encodings.length = 0 then
    .error (.operation "Input sentences cannot be empty.")
  else
    let token_ids := encodings.map TokEncoding.ids
    let attention_mask := encodings.map TokEncoding.attention
    let token_type_ids := encodings.map TokEncoding.type_ids
    let attention_mask :=
      if is_query && cfg.attend_to_expansion_tokens then
        attention_mask.map (fun row => row.map (fun _ => 1))
      else attention_mask
    .ok (token_ids, attention_mask, token_type_ids)

end TokenizationPolicy

section PostProcessor

/-- Modelled from the spec: `utils::normalize_l2` is not under `src/`. The
spec's words for it: L2-normalize each vector — divide by its Euclidean
norm; a zero vector stays zero (0/0 is taken as 0 to avoid NaN). -/
noncomputable def normalize_l2_row (v : List ℝ) : List ℝ :=
  let n := Real.sqrt (v.map (fun x => x * x)).sum
  if n = 0 then v else v.map (fun x => x / n)

/-- `normalize_l2` on a rank-2 tensor: each row (token vector) is
L2-normalized along the last axis. -/
noncomputable def normalize_l2 (m : List (List ℝ)) : List (List ℝ) :=
  m.map normalize_l2_row

/-- `normalize_l2` on a rank-3 tensor (the expanded-query path of `encode`
applies it to the whole `[batch, seq, dim]` projection output): every token
vector is L2-normalized along the last axis. -/
noncomputable def normalize_l2_3d (t : T3) : T3 :=
  t.map normalize_l2

/-- The filtering loop of `ColBERT::filter_normalize_and_pad`
(`src/model.rs:197-203`): the embedding rows at positions whose attention
mask value is 1. -/
def keptRows (emb : List (List ℝ)) (mask : List ℕ) : List (List ℝ) :=
  ((mask.zip emb).filter (fun p => p.1 == 1)).map Prod.snd

/-- One batch item of `ColBERT::filter_normalize_and_pad`
(`src/model.rs:193-222`): keep the attended rows; if none survive,
substitute a single `dim`-long zero vector, otherwise L2-normalize the
stacked survivors. -/
noncomputable def processOne (dim : ℕ) (emb : List (List ℝ)) (mask : List ℕ) :
    List (List ℝ) :=
  let kept := keptRows emb mask
  if kept.isEmpty then [List.replicate dim 0] else normalize_l2 kept

/-- `ColBERT::filter_normalize_and_pad` (`src/model.rs:183-242`): process
every batch item, track the maximum surviving length, then pad every
processed item with zero rows (of that item's row width) up to the maximum
and stack. -/
noncomputable def filter_normalize_and_pad (embeddings : T3)
    (attention_mask : List (List ℕ)) : T3 :=
  let dim := ((embeddings.headD []).headD []).length
  let processed := (embeddings.zip attention_mask).map
    (fun p => processOne dim p.1 p.2)
  let max_len := processed.foldl (fun m t => Nat.max m t.length) 0
  processed.map (fun t =>
    let d := (t.headD []).length
    if 0 < max_len - t.length then
      t ++ List.replicate (max_len - t.length) (List.replicate d 0)
    else t)

/-- The document / non-expanded-query post-processing path as the spec
states it (spec 4.1): per example keep only token positions whose
attention mask is 1 and L2-normalize each kept vector; substitute a single
`dim`-long zero vector when zero tokens survive; pad every example with
zero vectors up to the largest surviving token count of the batch and
stack. This definition follows the spec's words; the claim compares it
with `filter_normalize_and_pad`, which follows the source. -/
noncomputable def specDocumentPath (embeddings : T3)
    (attention_mask : List (List ℕ)) : T3 :=
  let dim := ((embeddings.headD []).headD []).length
  let survivors := (embeddings.zip attention_mask).map
    (fun p => ((p.2.zip p.1).filter (fun q => q.1 == 1)).map
      (fun q => normalize_l2_row q.2))
  let nonEmpty := survivors.map
    (fun s => if s.isEmpty then [List.replicate dim (0 : ℝ)] else s)
  let max_len := (nonEmpty.map List.length).foldl Nat.max 0
  nonEmpty.map (fun s => s ++ List.replicate (max_len - s.length) (List.replicate dim 0))

/-- The per-chunk post-processing routing of `ColBERT::encode`
(`src/model.rs:273-281` and `303-309`): documents and non-expanded queries
go through `filter_normalize_and_pad`; expanded queries are only
normalized. -/
noncomputable def postProcess (cfg : EncodingConfig) (is_query : Bool)
    (emb : T3) (attention_mask : List (List ℕ)) : T3 :=
  if !cfg.do_query_expansion || !is_query then
    filter_normalize_and_pad emb attention_mask
  else
    normalize_l2_3d emb

end PostProcessor

section BatchDispatcher

/-- The shape metadata candle's `Tensor::cat(tensors, 0)` compares on a
`[batch, seq, dim]` tensor: all axes but the concatenation axis, read off
the (rectangular) nesting. -/
def shape2 (t : T3) : ℕ × ℕ :=
  ((t.headD []).length, ((t.headD []).headD []).length)

/-- candle's `Tensor::cat(tensors, 0)`: every tensor must agree with the
first on all axes but axis 0, otherwise a shape-mismatch error; on success
the batches are concatenated. An empty tensor list is also an error. -/
def tcat (ts : List T3) : Except ColbertError T3 :=
  match ts with
  | [] => .error (.candle "cannot concat empty list")
  | t :: rest =>
      if rest.all (fun u => shape2 u == shape2 t) then
        .ok (t :: rest).flatten
      else
        .error (.candle "shape mismatch in cat")

/-- One chunk's unit of work in `ColBERT::encode`: tokenize the chunk, run
the external forward pass + linear projection `fwd`, post-process. -/
noncomputable def chunkStep (cfg : EncodingConfig) (tok : String → List (ℕ × ℕ))
    (fwd : Mat → Mat → Mat → Except ColbertError T3) (is_query : Bool)
    (batch : List String) : Except ColbertError T3 :=
  match tokenize cfg tok batch is_query with
  | .error e => .error e
  | .ok (token_ids, attention_mask, token_type_ids) =>
    match fwd token_ids attention_mask token_type_ids with
    | .error e => .error e
    | .ok emb => .ok (postProcess cfg is_query emb attention_mask)

/-- The sequential branch of `ColBERT::encode` (`src/model.rs:249-254` and
`291-318`): error on an empty sentence list, process the `batch_size`
chunks in order, return a single chunk's tensor unchanged, concatenate
otherwise. `fwd` is the external base-model forward pass composed with the
linear projection. -/
noncomputable def encodeSeq (cfg : EncodingConfig) (tok : String → List (ℕ × ℕ))
    (fwd : Mat → Mat → Mat → Except ColbertError T3)
    (sentences : List String) (is_query : Bool) : Except ColbertError T3 :=
  if sentences.isEmpty then
    .error (.operation "Input sentences cannot be empty.")
  else
    match collectE (chunkStep cfg tok fwd is_query)
        (chunksOf cfg.batch_size sentences) with
    | .error e => .error e
    | .ok all =>
        match all with
        | [t] => .ok t
        | _ => tcat all

/-- The Rayon branch of `ColBERT::encode` (`src/model.rs:257-289`): first
tokenize every chunk in order, then map the forward pass + post-processing
over the tokenized chunks (Rayon's ordered `collect` keeps the chunk
order), then the same single-chunk / concatenation epilogue. -/
noncomputable def encodePar (cfg : EncodingConfig) (tok : String → List (ℕ × ℕ))
    (fwd : Mat → Mat → Mat → Except ColbertError T3)
    (sentences : List String) (is_query : Bool) : Except ColbertError T3 :=
  if sentences.isEmpty then
    .error (.operation "Input sentences cannot be empty.")
  else
    match collectE (fun batch => tokenize cfg tok batch is_query)
        (chunksOf cfg.batch_size sentences) with
    | .error e => .error e
    | .ok tokenized =>
        match collectE (fun tpl =>
            match fwd tpl.1 tpl.2.1 tpl.2.2 with
            | .error e => .error e
            | .ok emb => .ok (postProcess cfg is_query emb tpl.2.1)) tokenized with
        | .error e => .error e
        | .ok all =>
            match all with
            | [t] => .ok t
            | _ => tcat all

/-- `ColBERT::encode_wasm` (`src/wasm.rs:99-115`): when the input carries a
batch-size override, assign it to the model's stored `batch_size`, then
run `encode`; the pair returns the call's result together with the model
configuration as it stands after the call (wasm targets take the
sequential branch of `encode`). -/
noncomputable def encode_wasm (cfg : EncodingConfig) (tok : String → List (ℕ × ℕ))
    (fwd : Mat → Mat → Mat → Except ColbertError T3)
    (sentences : List String) (batch_size : Option ℕ) (is_query : Bool) :
    Except ColbertError T3 × EncodingConfig :=
  let cfg2 := match batch_size with
    | some b => { cfg with batch_size := b }
    | none => cfg
  (encodeSeq cfg2 tok fwd sentences is_query, cfg2)

/-- `hierarchical_pooling_wasm` (`src/wasm.rs:197-239`): an empty embedding
batch returns an empty output; a batch whose first example has zero tokens
is returned unchanged; otherwise the nested input is flattened, reshaped
to `[batch, n_tokens, dim]` (an element-count error when the flat length
disagrees) and handed to the external pooling routine `pool`
(`pooling::hierarchical_pooling`, not under `src/`). -/
def hierarchical_pooling_wasm (pool : T3 → ℕ → Except ColbertError T3)
    (embeddings : T3) (pool_factor : ℕ) : Except ColbertError T3 :=
  if embeddings.isEmpty then .ok []
  else
    let n_tokens := (embeddings.headD []).length
    if n_tokens = 0 then .ok embeddings
    else
      let dim := ((embeddings.headD []).headD []).length
      let flat := (embeddings.map List.flatten).flatten
      if flat.length = embeddings.length * n_tokens * dim then
        pool (chunksOf n_tokens (chunksOf dim flat)) pool_factor
      else
        .error (.candle "unexpected number of elements")

end BatchDispatcher

section ScorerLemmas

lemma le_foldl_max (l : List ℚ) : ∀ a : ℚ, a ≤ l.foldl max a := by
  induction l with
  | nil => intro a; simp
  | cons x xs ih =>
      intro a
      simpa using le_trans (le_max_left a x) (ih (max a x))

lemma mem_le_foldl_max (l : List ℚ) : ∀ (a x : ℚ), x ∈ l → x ≤ l.foldl max a := by
  induction l with
  | nil => intro a x hx; cases hx
  | cons y ys ih =>
      intro a x hx
      rcases List.mem_cons.mp hx with h | h
      · subst h
        simpa using le_trans (le_max_right a x) (le_foldl_max ys (max a x))
      · simpa using ih (max a y) x h

lemma foldl_max_mem (l : List ℚ) : ∀ a : ℚ, l.foldl max a = a ∨ l.foldl max a ∈ l := by
  induction l with
  | nil => intro a; left; rfl
  | cons y ys ih =>
      intro a
      rcases ih (max a y) with h | h
      · rcases le_total a y with hay | hya
        · right
          have hm : max a y = y := max_eq_right hay
          rw [hm] at h
          rw [List.foldl_cons, hm, h]
          exact List.mem_cons_self y ys
        · left
          have hm : max a y = a := max_eq_left hya
          rw [hm] at h
          rw [List.foldl_cons, hm, h]
      · right
        simp only [List.foldl_cons]
        exact List.mem_cons_of_mem y h

/-- `listMax` of a non-empty list is its greatest element. -/
lemma listMax_isGreatest (l : List ℚ) (h : l ≠ []) :
    IsGreatest {x : ℚ | x ∈ l} (listMax l) := by
  match l, h with
  | a :: as, _ =>
      constructor
      · rcases foldl_max_mem as a with h1 | h1
        · simp [listMax, h1]
        · exact List.mem_cons_of_mem a h1
      · intro x hx
        rcases List.mem_cons.mp hx with h1 | h1
        · subst h1; exact le_foldl_max as x
        · exact mem_le_foldl_max as a x h1

/-- Broadcasting an index that is in bounds is the identity (an axis of
size 1 only admits index 0). -/
lemma bcastIdx_lt {n i : ℕ} (h : i < n) : bcastIdx n i = i := by
  unfold bcastIdx
  split <;> omega

end ScorerLemmas

section DispatcherLemmas

lemma chunksOf_nil (n : ℕ) : chunksOf n ([] : List α) = [] := by
  unfold chunksOf chunksOfAux
  split <;> rfl

lemma chunksOfAux_ne_nil (n : ℕ) :
    ∀ (fuel : ℕ) (l : List α) (c : List α), c ∈ chunksOfAux n fuel l → c ≠ [] := by
  intro fuel
  induction fuel with
  | zero =>
      intro l c hc
      simp [chunksOfAux] at hc
  | succ f ih =>
      intro l c hc
      cases l with
      | nil => simp [chunksOfAux] at hc
      | cons x xs =>
          simp only [chunksOfAux] at hc
          rcases List.mem_cons.mp hc with h | h
          · subst h; simp
          · exact ih _ c h

/-- Every chunk that `chunksOf` produces is non-empty. -/
lemma chunksOf_ne_nil (n : ℕ) (l : List α) (c : List α) (hc : c ∈ chunksOf n l) :
    c ≠ [] := by
  unfold chunksOf at hc
  by_cases hn : n = 0
  · simp [hn] at hc
  · rw [if_neg hn] at hc
    exact chunksOfAux_ne_nil n l.length l c hc

/-- The external tokenizer returns one encoding per input text. -/
lemma encode_batch_length (tok : String → List (ℕ × ℕ)) (n : ℕ)
    (pp : PaddingParams) (texts : List String) :
    (encode_batch tok n pp texts).length = texts.length := by
  unfold encode_batch
  cases pp.strategy <;> simp

/-- `tokenize` succeeds on every non-empty text list. -/
lemma tokenize_ok_of_ne_nil (cfg : EncodingConfig) (tok : String → List (ℕ × ℕ))
    (batch : List String) (q : Bool) (h : batch ≠ []) :
    ∃ v, tokenize cfg tok batch q = .ok v := by
  have hb : batch.length ≠ 0 := fun hc => h (List.length_eq_zero.mp hc)
  simp only [tokenize, encode_batch_length, List.length_map]
  rw [if_neg hb]
  exact ⟨_, rfl⟩

lemma collectE_ok_of_forall (f : α → Except ε β) :
    ∀ l : List α, (∀ a ∈ l, ∃ b, f a = .ok b) → ∃ bs, collectE f l = .ok bs := by
  intro l
  induction l with
  | nil => exact fun _ => ⟨[], rfl⟩
  | cons a as ih =>
      intro h
      obtain ⟨b, hb⟩ := h a (List.mem_cons_self a as)
      obtain ⟨bs, hbs⟩ := ih (fun x hx => h x (List.mem_cons_of_mem a hx))
      exact ⟨b :: bs, by simp [collectE, hb, hbs]⟩

lemma collectE_error_of_mem (f : α → Except ε β) (c : α)
    (hcf : ∀ b, f c ≠ .ok b) :
    ∀ l : List α, c ∈ l → ∃ e, collectE f l = .error e := by
  intro l
  induction l with
  | nil => intro hmem; cases hmem
  | cons a as ih =>
      intro hmem
      rcases List.mem_cons.mp hmem with h | h
      · subst h
        cases hfc : f c with
        | error e => exact ⟨e, by simp [collectE, hfc]⟩
        | ok b => exact absurd hfc (hcf b)
      · cases hfa : f a with
        | error e => exact ⟨e, by simp [collectE, hfa]⟩
        | ok b =>
            obtain ⟨e, he⟩ := ih h
            exact ⟨e, by simp [collectE, hfa, he]⟩

/-- Running a fallible pass over a whole list and then a second fallible
pass over the collected results equals running the fused pass element by
element, provided the first pass succeeds on every element (the order of
the surfaced error could otherwise differ). -/
lemma collectE_split (f : α → Except ε β) (g : β → Except ε γ) :
    ∀ l : List α, (∀ a ∈ l, ∃ b, f a = .ok b) →
    (match collectE f l with
     | .error e => .error e
     | .ok bs => collectE g bs)
    = collectE (fun a =>
        match f a with
        | .error e => .error e
        | .ok b => g b) l := by
  intro l
  induction l with
  | nil => intro _; simp [collectE]
  | cons a as ih =>
      intro h
      obtain ⟨b, hb⟩ := h a (List.mem_cons_self a as)
      obtain ⟨bs, hbs⟩ :=
        collectE_ok_of_forall f as (fun x hx => h x (List.mem_cons_of_mem a hx))
      have ih2 := ih (fun x hx => h x (List.mem_cons_of_mem a hx))
      rw [hbs] at ih2
      have ih3 : collectE g bs
          = collectE (fun a =>
              match f a with
              | .error e => .error e
              | .ok b => g b) as := ih2
      cases hgb : g b <;> simp [collectE, hb, hbs, hgb, ih3]

lemma le_foldl_natMax (l : List ℕ) : ∀ a : ℕ, a ≤ l.foldl Nat.max a := by
  induction l with
  | nil => intro a; simp
  | cons x xs ih =>
      intro a
      simpa using le_trans (Nat.le_max_left a x) (ih (Nat.max a x))

lemma mem_le_foldl_natMax (l : List ℕ) :
    ∀ (a x : ℕ), x ∈ l → x ≤ l.foldl Nat.max a := by
  induction l with
  | nil => intro a x hx; cases hx
  | cons y ys ih =>
      intro a x hx
      rcases List.mem_cons.mp hx with h | h
      · subst h
        simpa using le_trans (Nat.le_max_right a x) (le_foldl_natMax ys (Nat.max a x))
      · simpa using ih (Nat.max a y) x h

/-- Tokenizing all chunks first and then running the forward pass +
post-processing over the collected token batches (the Rayon branch's
structure) equals fusing both passes chunk by chunk (the sequential
branch's structure), as long as no chunk is empty (so tokenization never
fails). -/
lemma collectE_tok_then_fwd (cfg : EncodingConfig) (tok : String → List (ℕ × ℕ))
    (fwd : Mat → Mat → Mat → Except ColbertError T3) (q : Bool) :
    ∀ chs : List (List String), (∀ c ∈ chs, c ≠ []) →
    (match collectE (fun batch => tokenize cfg tok batch q) chs with
     | .error e => .error e
     | .ok toks =>
         collectE (fun tpl =>
           match fwd tpl.1 tpl.2.1 tpl.2.2 with
           | .error e => .error e
           | .ok emb => .ok (postProcess cfg q emb tpl.2.1)) toks)
    = collectE (chunkStep cfg tok fwd q) chs := by
  intro chs
  induction chs with
  | nil => intro _; simp [collectE]
  | cons c cs ih =>
      intro h
      obtain ⟨v, hv⟩ := tokenize_ok_of_ne_nil cfg tok c q (h c (List.mem_cons_self c cs))
      obtain ⟨toks0, htoks⟩ := collectE_ok_of_forall (fun batch => tokenize cfg tok batch q) cs
        (fun x hx => tokenize_ok_of_ne_nil cfg tok x q (h x (List.mem_cons_of_mem c hx)))
      have ih2 := ih (fun x hx => h x (List.mem_cons_of_mem c hx))
      rw [htoks] at ih2
      have ih3 : collectE (fun tpl =>
           match fwd tpl.1 tpl.2.1 tpl.2.2 with
           | .error e => .error e
           | .ok emb => .ok (postProcess cfg q emb tpl.2.1)) toks0
          = collectE (chunkStep cfg tok fwd q) cs := ih2
      obtain ⟨i, m, t⟩ := v
      have hstep : chunkStep cfg tok fwd q c
          = match fwd i m t with
            | .error e => .error e
            | .ok emb => .ok (postProcess cfg q emb m) := by
        unfold chunkStep
        rw [hv]
      cases hfwd : fwd i m t with
      | error e =>
          simp [collectE, hv, htoks, hstep, hfwd]
      | ok emb =>
          cases hrec : collectE (chunkStep cfg tok fwd q) cs with
          | error e => simp [collectE, hv, htoks, hstep, hfwd, ih3, hrec]
          | ok rest => simp [collectE, hv, htoks, hstep, hfwd, ih3, hrec]

/-- The Rayon branch and the sequential branch of `encode` agree on every
input. -/
lemma encodePar_eq_encodeSeq (cfg : EncodingConfig) (tok : String → List (ℕ × ℕ))
    (fwd : Mat → Mat → Mat → Except ColbertError T3)
    (sentences : List String) (q : Bool) :
    encodePar cfg tok fwd sentences q = encodeSeq cfg tok fwd sentences q := by
  unfold encodePar encodeSeq
  by_cases hs : sentences.isEmpty = true
  · rw [if_pos hs, if_pos hs]
  · rw [if_neg hs, if_neg hs]
    have hchunks : ∀ c ∈ chunksOf cfg.batch_size sentences, c ≠ [] :=
      fun c hc => chunksOf_ne_nil _ _ _ hc
    rw [← collectE_tok_then_fwd cfg tok fwd q (chunksOf cfg.batch_size sentences) hchunks]
    cases h1 : collectE (fun batch => tokenize cfg tok batch q)
        (chunksOf cfg.batch_size sentences) <;> simp [h1]

end DispatcherLemmas

/-- The encodings the external tokenizer returns inside
`ColBERT::tokenize`: prefix chosen by `is_query` prepended to every text,
truncation at the matching maximum length, fixed-to-`query_length` padding
with the mask token for queries and batch-longest padding for documents. -/
def tokenizeEncodings (cfg : EncodingConfig) (tok : String → List (ℕ × ℕ))
    (texts : List String) (q : Bool) : List TokEncoding :=
  encode_batch tok (if q then cfg.query_length else cfg.document_length)
    (if q then ⟨.fixed cfg.query_length, cfg.mask_token_id, cfg.mask_token⟩
     else ⟨.batchLongest, 0, "[PAD]"⟩)
    (texts.map (fun text => (if q then cfg.query_pre else cfg.document_pre) ++ text))

/-- On a non-empty text list, `tokenize` returns the tokenizer's id and
type-id matrices unchanged, and the attention matrix with the all-ones
override applied exactly when `is_query` and `attend_to_expansion_tokens`
hold. -/
lemma tokenize_ok_eq (cfg : EncodingConfig) (tok : String → List (ℕ × ℕ))
    (texts : List String) (q : Bool) (h : texts ≠ []) :
    tokenize cfg tok texts q =
      .ok ((tokenizeEncodings cfg tok texts q).map TokEncoding.ids,
           (if q && cfg.attend_to_expansion_tokens then
              ((tokenizeEncodings cfg tok texts q).map TokEncoding.attention).map
                (fun row => row.map (fun _ => 1))
            else (tokenizeEncodings cfg tok texts q).map TokEncoding.attention),
           (tokenizeEncodings cfg tok texts q).map TokEncoding.type_ids) := by
  have hlen : texts.length ≠ 0 := fun hc => h (List.length_eq_zero.mp hc)
  cases q <;>
    simp [tokenize, tokenizeEncodings, encode_batch_length, hlen]

section Fixtures

/-- A concrete external tokenizer for witnesses: every prefixed text is one
token except a specific two-token document. -/
def tokD : String → List (ℕ × ℕ) := fun s =>
  if s = "[D]b" then [(5, 0), (6, 0)] else [(4, 0)]

/-- A concrete forward pass + projection for witnesses: every token becomes
the one-dimensional unit vector `[1]`. -/
def fwdOnes : Mat → Mat → Mat → Except ColbertError T3 :=
  fun ids _ _ => .ok (ids.map (fun row => row.map (fun _ => [(1 : ℝ)])))

/-- A forward pass that always fails, for the error-handling witnesses. -/
def fwdFail : Mat → Mat → Mat → Except ColbertError T3 :=
  fun _ _ _ => .error (.operation "forward failed")

/-- A pooling routine that always fails: the degenerate-shape theorems hold
for every `pool`, so the witness may use this one to show `pool` is never
consulted. -/
def poolFail : T3 → ℕ → Except ColbertError T3 :=
  fun _ _ => .error (.operation "pool invoked")

/-- A concrete model configuration (defaults of the spec) with a chosen
batch size. -/
def cfgDoc (bs : ℕ) : EncodingConfig :=
  { query_pre := "[Q]"
    document_pre := "[D]"
    mask_token := "[MASK]"
    mask_token_id := 103
    do_query_expansion := true
    attend_to_expansion_tokens := false
    query_length := 32
    document_length := 180
    batch_size := bs }

end Fixtures

/-- C6: a model constructed with `do_query_expansion = false` stores
`attend_to_expansion_tokens = false` whatever value was supplied, the whole
configuration coincides with the one built from
`attend_to_expansion_tokens = false`, and every encode call behaves
identically under the two constructions. -/
theorem attend_normalized_when_no_expansion (qp dp mt : String) (mtid : ℕ)
    (atet : Bool) (ql dl bs : Option ℕ) (tok : String → List (ℕ × ℕ))
    (fwd : Mat → Mat → Mat → Except ColbertError T3)
    (sentences : List String) (q : Bool) :
    colbertNew qp dp mt mtid false atet ql dl bs
      = colbertNew qp dp mt mtid false false ql dl bs
    ∧ (colbertNew qp dp mt mtid false atet ql dl bs).attend_to_expansion_tokens = false
    ∧ encodeSeq (colbertNew qp dp mt mtid false atet ql dl bs) tok fwd sentences q
      = encodeSeq (colbertNew qp dp mt mtid false false ql dl bs) tok fwd sentences q
    ∧ encodePar (colbertNew qp dp mt mtid false atet ql dl bs) tok fwd sentences q
      = encodePar (colbertNew qp dp mt mtid false false ql dl bs) tok fwd sentences q :=
  ⟨rfl, rfl, rfl, rfl⟩

/-- C7: `encode` on an empty sentence list fails with the operation error
and returns no tensor; and when the forward pass fails on any chunk of the
input, the whole call returns an error (no partial results). -/
theorem encode_error_handling (cfg : EncodingConfig) (tok : String → List (ℕ × ℕ))
    (fwd : Mat → Mat → Mat → Except ColbertError T3)
    (sentences : List String) (q : Bool) (c : List String) (e : ColbertError)
    (hc : c ∈ chunksOf cfg.batch_size sentences)
    (hf : ∀ i m t, tokenize cfg tok c q = .ok (i, m, t) → fwd i m t = .error e) :
    (∃ e2, encodeSeq cfg tok fwd sentences q = .error e2)
    ∧ encodeSeq cfg tok fwd [] q
        = .error (.operation "Input sentences cannot be empty.") := by
  refine ⟨?_, rfl⟩
  have hcf : ∀ b, chunkStep cfg tok fwd q c ≠ .ok b := by
    intro b hb
    unfold chunkStep at hb
    cases ht : tokenize cfg tok c q with
    | error e2 =>
        rw [ht] at hb
        have hb2 : (Except.error e2 : Except ColbertError T3) = .ok b := hb
        simp at hb2
    | ok v =>
        obtain ⟨i, m, t⟩ := v
        rw [ht] at hb
        have hb2 : (match fwd i m t with
            | .error e => .error e
            | .ok emb => .ok (postProcess cfg q emb m) : Except ColbertError T3)
            = .ok b := hb
        rw [hf i m t ht] at hb2
        simp at hb2
  obtain ⟨e2, he2⟩ := collectE_error_of_mem (chunkStep cfg tok fwd q) c hcf _ hc
  refine ⟨e2, ?_⟩
  unfold encodeSeq
  have hne : sentences.isEmpty ≠ true := by
    intro hemp
    have hnil : sentences = [] := by
      cases sentences with
      | nil => rfl
      | cons a as => simp at hemp
    subst hnil
    rw [chunksOf_nil] at hc
    cases hc
  rw [if_neg hne, he2]

/-- Witness for `encode_error_handling`: a two-sentence document call with
batch size 1 whose forward pass fails on the first chunk. -/
theorem encode_error_handling_witness :
    ["a"] ∈ chunksOf (cfgDoc 1).batch_size ["a", "b"]
    ∧ ((∃ e2, encodeSeq (cfgDoc 1) tokD fwdFail ["a", "b"] false = .error e2)
       ∧ encodeSeq (cfgDoc 1) tokD fwdFail [] false
           = .error (.operation "Input sentences cannot be empty.")) :=
  ⟨by decide,
   encode_error_handling (cfgDoc 1) tokD fwdFail ["a", "b"] false ["a"]
     (.operation "forward failed") (by decide) (fun i m t _ => rfl)⟩

/-- C9 (amended): the configuration after `encode_wasm` equals the input
configuration with `batch_size` replaced by the override when one is
supplied — the override persists in the stored state — while a call without
an override leaves the configuration unchanged, every other configuration
field is preserved, and the call's result is `encode` at the overridden
batch size. -/
theorem encode_wasm_config_update (cfg : EncodingConfig)
    (tok : String → List (ℕ × ℕ)) (fwd : Mat → Mat → Mat → Except ColbertError T3)
    (sentences : List String) (ov : Option ℕ) (q : Bool) :
    (encode_wasm cfg tok fwd sentences ov q).2
      = { cfg with batch_size := ov.getD cfg.batch_size }
    ∧ (encode_wasm cfg tok fwd sentences none q).2 = cfg
    ∧ (encode_wasm cfg tok fwd sentences ov q).1
      = encodeSeq { cfg with batch_size := ov.getD cfg.batch_size } tok fwd sentences q
    ∧ ((encode_wasm cfg tok fwd sentences ov q).2).query_pre = cfg.query_pre
    ∧ ((encode_wasm cfg tok fwd sentences ov q).2).document_pre = cfg.document_pre
    ∧ ((encode_wasm cfg tok fwd sentences ov q).2).mask_token = cfg.mask_token
    ∧ ((encode_wasm cfg tok fwd sentences ov q).2).mask_token_id = cfg.mask_token_id
    ∧ ((encode_wasm cfg tok fwd sentences ov q).2).do_query_expansion
        = cfg.do_query_expansion
    ∧ ((encode_wasm cfg tok fwd sentences ov q).2).attend_to_expansion_tokens
        = cfg.attend_to_expansion_tokens
    ∧ ((encode_wasm cfg tok fwd sentences ov q).2).query_length = cfg.query_length
    ∧ ((encode_wasm cfg tok fwd sentences ov q).2).document_length
        = cfg.document_length := by
  cases ov <;>
    exact ⟨rfl, rfl, rfl, rfl, rfl, rfl, rfl, rfl, rfl, rfl, rfl⟩

/-- Counterexample to C9 as stated: an `encode_wasm` call carrying a
batch-size override of 2 on a model constructed with batch size 32 leaves
the stored configuration changed — the batch size held after the call is
2, not the construction-time 32, so a later call without an override uses
2. -/
theorem batch_size_override_persists_counterexample :
    (encode_wasm (cfgDoc 32) tokD fwdOnes ["a"] (some 2) false).2 ≠ cfgDoc 32
    ∧ ((encode_wasm (cfgDoc 32) tokD fwdOnes ["a"] (some 2) false).2).batch_size = 2
    ∧ (cfgDoc 32).batch_size = 32 := by
  refine ⟨?_, rfl, rfl⟩
  intro hEq
  have h2 : (2 : ℕ) = 32 := congrArg EncodingConfig.batch_size hEq
  exact absurd h2 (by decide)

/-- C10: the WASM hierarchical-pooling entry point reports no error for
degenerate shapes — an empty batch yields an empty output, a non-empty
batch whose first example has zero tokens is returned unchanged without
consulting the pooling routine (the results hold for every `pool`) — in
contrast with `encode`, which rejects an empty input with an operation
error. -/
theorem hierarchical_pooling_wasm_degenerate
    (pool : T3 → ℕ → Except ColbertError T3) (factor : ℕ) (embs : T3)
    (h1 : embs ≠ []) (h2 : (embs.headD []).length = 0) :
    hierarchical_pooling_wasm pool [] factor = .ok []
    ∧ hierarchical_pooling_wasm pool embs factor = .ok embs
    ∧ (∀ (cfg : EncodingConfig) (tok : String → List (ℕ × ℕ))
        (fwd : Mat → Mat → Mat → Except ColbertError T3) (q : Bool),
        encodeSeq cfg tok fwd [] q
          = .error (.operation "Input sentences cannot be empty.")) := by
  refine ⟨rfl, ?_, fun cfg tok fwd q => rfl⟩
  match embs, h1 with
  | a :: as, _ =>
      have h2a : a.length = 0 := by simpa using h2
      simp [hierarchical_pooling_wasm, h2a]

/-- Witness for `hierarchical_pooling_wasm_degenerate` on the batch holding
one zero-token example, with a pooling routine that would fail if it were
ever consulted. -/
theorem hierarchical_pooling_wasm_degenerate_witness :
    ([[]] : T3) ≠ []
    ∧ (([[]] : T3).headD []).length = 0
    ∧ (hierarchical_pooling_wasm poolFail [] 3 = .ok []
       ∧ hierarchical_pooling_wasm poolFail [[]] 3 = .ok [[]]
       ∧ (∀ (cfg : EncodingConfig) (tok : String → List (ℕ × ℕ))
            (fwd : Mat → Mat → Mat → Except ColbertError T3) (q : Bool),
            encodeSeq cfg tok fwd [] q
              = .error (.operation "Input sentences cannot be empty."))) :=
  ⟨by simp, by simp,
   hierarchical_pooling_wasm_degenerate poolFail 3 [[]] (by simp) (by simp)⟩

/-- C8: the attention mask `tokenize` returns is the all-ones override
exactly when the call is a query and `attend_to_expansion_tokens` holds;
in every other case the mask the external tokenizer produced is returned
untouched; and the token ids and token type ids are never altered by the
override (they agree with the call on the same model with the override
disabled). -/
theorem tokenize_mask_override (cfg : EncodingConfig) (tok : String → List (ℕ × ℕ))
    (texts : List String) (q : Bool) (h : texts ≠ []) :
    ∃ ids mask tids mask0,
      tokenize cfg tok texts q = .ok (ids, mask, tids)
      ∧ tokenize { cfg with attend_to_expansion_tokens := false } tok texts q
          = .ok (ids, mask0, tids)
      ∧ mask0 = (tokenizeEncodings cfg tok texts q).map TokEncoding.attention
      ∧ (q = true → cfg.attend_to_expansion_tokens = true →
          mask = mask0.map (fun row => row.map (fun _ => 1))
          ∧ ∀ row ∈ mask, ∀ v ∈ row, v = 1)
      ∧ ((q = false ∨ cfg.attend_to_expansion_tokens = false) → mask = mask0) := by
  have h1 := tokenize_ok_eq cfg tok texts q h
  have h0 := tokenize_ok_eq { cfg with attend_to_expansion_tokens := false } tok texts q h
  refine ⟨(tokenizeEncodings cfg tok texts q).map TokEncoding.ids,
    (if q && cfg.attend_to_expansion_tokens then
       ((tokenizeEncodings cfg tok texts q).map TokEncoding.attention).map
         (fun row => row.map (fun _ => 1))
     else (tokenizeEncodings cfg tok texts q).map TokEncoding.attention),
    (tokenizeEncodings cfg tok texts q).map TokEncoding.type_ids,
    (tokenizeEncodings cfg tok texts q).map TokEncoding.attention,
    h1, ?_, rfl, ?_, ?_⟩
  · simpa [tokenizeEncodings] using h0
  · intro hq hat
    have hmask : (if q && cfg.attend_to_expansion_tokens then
        ((tokenizeEncodings cfg tok texts q).map TokEncoding.attention).map
          (fun row => row.map (fun _ => 1))
      else (tokenizeEncodings cfg tok texts q).map TokEncoding.attention)
        = ((tokenizeEncodings cfg tok texts q).map TokEncoding.attention).map
          (fun row => row.map (fun _ => 1)) := by
      simp [hq, hat]
    refine ⟨hmask, ?_⟩
    intro row hrow v hv
    rw [hmask] at hrow
    rcases List.mem_map.mp hrow with ⟨r, hr, rfl⟩
    rcases List.mem_map.mp hv with ⟨x, hx, hxEq⟩
    exact hxEq.symm
  · intro hcase
    rcases hcase with hq | hat
    · simp [hq]
    · simp [hat]

/-- Witness for `tokenize_mask_override` on a one-query call with the
expansion-attendance override enabled. -/
theorem tokenize_mask_override_witness :
    (["x"] : List String) ≠ []
    ∧ ∃ ids mask tids mask0,
      tokenize { cfgDoc 2 with attend_to_expansion_tokens := true } tokD ["x"] true
          = .ok (ids, mask, tids)
      ∧ tokenize { { cfgDoc 2 with attend_to_expansion_tokens := true } with
            attend_to_expansion_tokens := false } tokD ["x"] true
          = .ok (ids, mask0, tids)
      ∧ mask0 = (tokenizeEncodings { cfgDoc 2 with attend_to_expansion_tokens := true }
            tokD ["x"] true).map TokEncoding.attention
      ∧ (true = true →
          ({ cfgDoc 2 with attend_to_expansion_tokens := true }
             : EncodingConfig).attend_to_expansion_tokens = true →
          mask = mask0.map (fun row => row.map (fun _ => 1))
          ∧ ∀ row ∈ mask, ∀ v ∈ row, v = 1)
      ∧ ((true = false ∨
          ({ cfgDoc 2 with attend_to_expansion_tokens := true }
             : EncodingConfig).attend_to_expansion_tokens = false) →
          mask = mask0) :=
  ⟨by decide,
   tokenize_mask_override { cfgDoc 2 with attend_to_expansion_tokens := true }
     tokD ["x"] true (by decide)⟩

/-- The id matrix the external tokenizer hands `tokenize` for a query call:
prefix prepended, ids truncated to `query_length` and padded with the mask
token id up to exactly `query_length`. -/
lemma tokenizeEncodings_query_ids (cfg : EncodingConfig)
    (tok : String → List (ℕ × ℕ)) (texts : List String) :
    (tokenizeEncodings cfg tok texts true).map TokEncoding.ids
      = texts.map (fun t =>
          ((tok (cfg.query_pre ++ t)).take cfg.query_length).map Prod.fst
          ++ List.replicate
              (cfg.query_length
                - ((tok (cfg.query_pre ++ t)).take cfg.query_length).length)
              cfg.mask_token_id) := by
  simp [tokenizeEncodings, encode_batch, padTo, List.map_map]

/-- The id matrix the external tokenizer hands `tokenize` for a document
call: prefix prepended, ids truncated to `document_length` and padded with
the default pad id 0 up to the longest truncated sequence of the batch. -/
lemma tokenizeEncodings_document_ids (cfg : EncodingConfig)
    (tok : String → List (ℕ × ℕ)) (texts : List String) :
    (tokenizeEncodings cfg tok texts false).map TokEncoding.ids
      = texts.map (fun t =>
          ((tok (cfg.document_pre ++ t)).take cfg.document_length).map Prod.fst
          ++ List.replicate
              ((texts.map (fun u =>
                  ((tok (cfg.document_pre ++ u)).take cfg.document_length).length)).foldl
                  Nat.max 0
                - ((tok (cfg.document_pre ++ t)).take cfg.document_length).length)
              0) := by
  simp only [tokenizeEncodings, encode_batch, padTo, List.map_map]
  have hfg : (List.length ∘ (fun s => List.take cfg.document_length (tok s))
        ∘ fun text => cfg.document_pre ++ text)
      = fun u => (List.take cfg.document_length (tok (cfg.document_pre ++ u))).length := by
    funext u
    simp [Function.comp]
  simp [hfg, padTo, List.map_take]

/-- C5: `tokenize` prepends `query_prefix` (for queries) or
`document_prefix` (for documents) to every raw string as literal text,
truncation caps the token count at `query_length` / `document_length`, and
padding is fixed-length to `query_length` with the mask token id for
queries (every query row has exactly `query_length` tokens) and
batch-longest for documents (every document row has the length of the
longest truncated example of the chunk). -/
theorem tokenize_prefix_truncation_padding (cfg : EncodingConfig)
    (tok : String → List (ℕ × ℕ)) (texts : List String) (h : texts ≠ []) :
    (∃ mask tids,
      tokenize cfg tok texts true
        = .ok (texts.map (fun t =>
            ((tok (cfg.query_pre ++ t)).take cfg.query_length).map Prod.fst
            ++ List.replicate
                (cfg.query_length
                  - ((tok (cfg.query_pre ++ t)).take cfg.query_length).length)
                cfg.mask_token_id),
            mask, tids))
    ∧ (∀ row ∈ texts.map (fun t =>
          ((tok (cfg.query_pre ++ t)).take cfg.query_length).map Prod.fst
          ++ List.replicate
              (cfg.query_length
                - ((tok (cfg.query_pre ++ t)).take cfg.query_length).length)
              cfg.mask_token_id),
        row.length = cfg.query_length)
    ∧ (∃ mask tids,
      tokenize cfg tok texts false
        = .ok (texts.map (fun t =>
            ((tok (cfg.document_pre ++ t)).take cfg.document_length).map Prod.fst
            ++ List.replicate
                ((texts.map (fun u =>
                    ((tok (cfg.document_pre ++ u)).take cfg.document_length).length)).foldl
                    Nat.max 0
                  - ((tok (cfg.document_pre ++ t)).take cfg.document_length).length)
                0),
            mask, tids))
    ∧ (∀ row ∈ texts.map (fun t =>
          ((tok (cfg.document_pre ++ t)).take cfg.document_length).map Prod.fst
          ++ List.replicate
              ((texts.map (fun u =>
                  ((tok (cfg.document_pre ++ u)).take cfg.document_length).length)).foldl
                  Nat.max 0
                - ((tok (cfg.document_pre ++ t)).take cfg.document_length).length)
              0),
        row.length = (texts.map (fun u =>
            ((tok (cfg.document_pre ++ u)).take cfg.document_length).length)).foldl
            Nat.max 0) := by
  refine ⟨?_, ?_, ?_, ?_⟩
  · exact ⟨_, _, (tokenize_ok_eq cfg tok texts true h).trans
      (by rw [tokenizeEncodings_query_ids])⟩
  · intro row hrow
    rcases List.mem_map.mp hrow with ⟨t, ht, rfl⟩
    have hle : ((tok (cfg.query_pre ++ t)).take cfg.query_length).length
        ≤ cfg.query_length := by
      rw [List.length_take]
      exact min_le_left _ _
    simp only [List.length_append, List.length_map, List.length_replicate]
    omega
  · exact ⟨_, _, (tokenize_ok_eq cfg tok texts false h).trans
      (by rw [tokenizeEncodings_document_ids])⟩
  · intro row hrow
    rcases List.mem_map.mp hrow with ⟨t, ht, rfl⟩
    have hmem : ((tok (cfg.document_pre ++ t)).take cfg.document_length).length
        ∈ texts.map (fun u =>
            ((tok (cfg.document_pre ++ u)).take cfg.document_length).length) :=
      List.mem_map.mpr ⟨t, ht, rfl⟩
    have hle := mem_le_foldl_natMax _ 0 _ hmem
    simp only [List.length_append, List.length_map, List.length_replicate]
    omega

/-- Witness for `tokenize_prefix_truncation_padding` on a concrete
two-sentence batch. -/
theorem tokenize_prefix_truncation_padding_witness :
    (["a", "b"] : List String) ≠ []
    ∧ ((∃ mask tids,
      tokenize (cfgDoc 2) tokD ["a", "b"] true
        = .ok (["a", "b"].map (fun t =>
            ((tokD ((cfgDoc 2).query_pre ++ t)).take (cfgDoc 2).query_length).map Prod.fst
            ++ List.replicate
                ((cfgDoc 2).query_length
                  - ((tokD ((cfgDoc 2).query_pre ++ t)).take (cfgDoc 2).query_length).length)
                (cfgDoc 2).mask_token_id),
            mask, tids))
    ∧ (∀ row ∈ ["a", "b"].map (fun t =>
          ((tokD ((cfgDoc 2).query_pre ++ t)).take (cfgDoc 2).query_length).map Prod.fst
          ++ List.replicate
              ((cfgDoc 2).query_length
                - ((tokD ((cfgDoc 2).query_pre ++ t)).take (cfgDoc 2).query_length).length)
              (cfgDoc 2).mask_token_id),
        row.length = (cfgDoc 2).query_length)
    ∧ (∃ mask tids,
      tokenize (cfgDoc 2) tokD ["a", "b"] false
        = .ok (["a", "b"].map (fun t =>
            ((tokD ((cfgDoc 2).document_pre ++ t)).take (cfgDoc 2).document_length).map Prod.fst
            ++ List.replicate
                ((["a", "b"].map (fun u =>
                    ((tokD ((cfgDoc 2).document_pre ++ u)).take (cfgDoc 2).document_length).length)).foldl
                    Nat.max 0
                  - ((tokD ((cfgDoc 2).document_pre ++ t)).take (cfgDoc 2).document_length).length)
                0),
            mask, tids))
    ∧ (∀ row ∈ ["a", "b"].map (fun t =>
          ((tokD ((cfgDoc 2).document_pre ++ t)).take (cfgDoc 2).document_length).map Prod.fst
          ++ List.replicate
              ((["a", "b"].map (fun u =>
                  ((tokD ((cfgDoc 2).document_pre ++ u)).take (cfgDoc 2).document_length).length)).foldl
                  Nat.max 0
                - ((tokD ((cfgDoc 2).document_pre ++ t)).take (cfgDoc 2).document_length).length)
              0),
        row.length = (["a", "b"].map (fun u =>
            ((tokD ((cfgDoc 2).document_pre ++ u)).take (cfgDoc 2).document_length).length)).foldl
            Nat.max 0)) :=
  ⟨by decide, tokenize_prefix_truncation_padding (cfgDoc 2) tokD ["a", "b"] (by decide)⟩

section PostProcessorLemmas

lemma normalize_l2_row_length (v : List ℝ) :
    (normalize_l2_row v).length = v.length := by
  simp only [normalize_l2_row]
  split <;> simp

/-- One batch item of the source post-processor, written the way the spec
phrases it: normalize each kept vector, then substitute the zero vector
when nothing survived. -/
lemma processOne_eq (dim : ℕ) (emb : List (List ℝ)) (mask : List ℕ) :
    processOne dim emb mask
      = (fun s => if s.isEmpty then [List.replicate dim (0 : ℝ)] else s)
          (((mask.zip emb).filter (fun q => q.1 == 1)).map
            (fun q => normalize_l2_row q.2)) := by
  unfold processOne keptRows normalize_l2
  cases hfil : (mask.zip emb).filter (fun q => q.1 == 1) with
  | nil => simp [hfil]
  | cons x xs => simp [hfil, List.map_map]

lemma foldl_max_len (L : List (List (List ℝ))) :
    L.foldl (fun m t => Nat.max m t.length) 0
      = (L.map List.length).foldl Nat.max 0 := by
  rw [List.foldl_map]

/-- Every entry of the spec-side processed list has rows of width `d` at
its head (using the rectangularity of the input batch). -/
lemma subst_entry_head_len (d : ℕ) (Z : List ((List (List ℝ)) × List ℕ))
    (hdim : ∀ p ∈ Z, ∀ row ∈ p.1, row.length = d) :
    ∀ t ∈ (Z.map (fun p => ((p.2.zip p.1).filter (fun q => q.1 == 1)).map
          (fun q => normalize_l2_row q.2))).map
        (fun s => if s.isEmpty then [List.replicate d (0 : ℝ)] else s),
      (t.headD []).length = d := by
  intro t ht
  rcases List.mem_map.mp ht with ⟨s, hs, rfl⟩
  rcases List.mem_map.mp hs with ⟨p, hp, rfl⟩
  by_cases hse : (((p.2.zip p.1).filter (fun q => q.1 == 1)).map
      (fun q => normalize_l2_row q.2)).isEmpty
  · simp [hse]
  · cases hsv : ((p.2.zip p.1).filter (fun q => q.1 == 1)).map
        (fun q => normalize_l2_row q.2) with
    | nil => rw [hsv] at hse; simp at hse
    | cons r rs =>
        have hr : r ∈ ((p.2.zip p.1).filter (fun q => q.1 == 1)).map
            (fun q => normalize_l2_row q.2) := by
          rw [hsv]
          exact List.mem_cons_self r rs
        rcases List.mem_map.mp hr with ⟨qq, hq, rfl⟩
        rcases qq with ⟨mv, rv⟩
        have hqz : (mv, rv) ∈ p.2.zip p.1 := List.mem_of_mem_filter hq
        have hrv : rv ∈ p.1 := (List.of_mem_zip hqz).2
        have hlen : rv.length = d := hdim p hp rv hrv
        simp [hse, hsv, normalize_l2_row_length, hlen]

/-- Padding one processed example with zero rows of its own width equals
padding it with zero rows of width `d`, and the guarded pad of the source
equals the spec's unconditional pad (a zero-length pad appends nothing). -/
lemma pad_entry_eq (M d : ℕ) (t : List (List ℝ)) (hd : (t.headD []).length = d) :
    (if 0 < M - t.length then
       t ++ List.replicate (M - t.length) (List.replicate ((t.headD []).length) (0 : ℝ))
     else t)
    = t ++ List.replicate (M - t.length) (List.replicate d 0) := by
  rw [hd]
  by_cases hpos : 0 < M - t.length
  · rw [if_pos hpos]
  · rw [if_neg hpos]
    have h0 : M - t.length = 0 := by omega
    rw [h0]
    simp

/-- The core of the C3 comparison, parametric over the zipped batch `Z`
and the embedding width `d`: the source's filter/normalize/pad loop equals
the spec's composition. -/
lemma fnp_spec_core (d : ℕ) (Z : List ((List (List ℝ)) × List ℕ))
    (hdim : ∀ p ∈ Z, ∀ row ∈ p.1, row.length = d) :
    (let processed := Z.map (fun p => processOne d p.1 p.2)
     let max_len := processed.foldl (fun m t => Nat.max m t.length) 0
     processed.map (fun t =>
       let dd := (t.headD []).length
       if 0 < max_len - t.length then
         t ++ List.replicate (max_len - t.length) (List.replicate dd 0)
       else t))
    = (let survivors := Z.map (fun p =>
         ((p.2.zip p.1).filter (fun q => q.1 == 1)).map
           (fun q => normalize_l2_row q.2))
       let nonEmpty := survivors.map
         (fun s => if s.isEmpty then [List.replicate d (0 : ℝ)] else s)
       let max_len := (nonEmpty.map List.length).foldl Nat.max 0
       nonEmpty.map (fun s =>
         s ++ List.replicate (max_len - s.length) (List.replicate d 0))) := by
  have h1 : Z.map (fun p => processOne d p.1 p.2)
      = (Z.map (fun p => ((p.2.zip p.1).filter (fun q => q.1 == 1)).map
          (fun q => normalize_l2_row q.2))).map
        (fun s => if s.isEmpty then [List.replicate d (0 : ℝ)] else s) := by
    rw [List.map_map]
    exact congrArg (fun f => Z.map f) (funext fun p => processOne_eq d p.1 p.2)
  simp only [h1]
  apply List.map_congr_left
  intro t ht
  have hd := subst_entry_head_len d Z hdim t ht
  simp only [← foldl_max_len]
  exact pad_entry_eq _ d t hd

end PostProcessorLemmas

/-- C3: the per-chunk post-processing routes by input type; on the
document / non-expanded-query path `filter_normalize_and_pad` computes
exactly the spec's composition — per example keep only the positions whose
attention mask is 1, L2-normalize each kept vector, substitute a single
`dim`-long zero vector when none survive (so the example participates in
padding with length 1), pad every example with zero vectors up to the
largest surviving count and stack — while on the expanded-query path
(`do_query_expansion` and `is_query` both true) filtering and re-padding
are skipped and every token vector is only L2-normalized. -/
theorem filter_normalize_and_pad_matches_spec (embeddings : T3)
    (attention_mask : List (List ℕ))
    (hdim : ∀ ex ∈ embeddings, ∀ row ∈ ex,
        row.length = ((embeddings.headD []).headD []).length) :
    filter_normalize_and_pad embeddings attention_mask
      = specDocumentPath embeddings attention_mask
    ∧ (∀ cfg : EncodingConfig, cfg.do_query_expansion = true →
        ∀ (emb : T3) (mask : List (List ℕ)),
          postProcess cfg true emb mask = normalize_l2_3d emb)
    ∧ (∀ (cfg : EncodingConfig) (q : Bool) (emb : T3) (mask : List (List ℕ)),
        cfg.do_query_expansion = false ∨ q = false →
          postProcess cfg q emb mask = filter_normalize_and_pad emb mask) := by
  refine ⟨?_, ?_, ?_⟩
  · have hz : ∀ p ∈ embeddings.zip attention_mask, ∀ row ∈ p.1,
        row.length = ((embeddings.headD []).headD []).length := by
      intro p hp row hrow
      rcases p with ⟨ex, mk⟩
      exact hdim ex (List.of_mem_zip hp).1 row hrow
    exact fnp_spec_core ((embeddings.headD []).headD []).length
      (embeddings.zip attention_mask) hz
  · intro cfg hq emb mask
    simp [postProcess, hq]
  · intro cfg q emb mask hcase
    rcases hcase with hdq | hq
    · simp [postProcess, hdq]
    · simp [postProcess, hq]

section ConcreteEvaluation

lemma norm_row_one : normalize_l2_row [(1 : ℝ)] = [1] := by
  simp [normalize_l2_row]

lemma fnp_chunk_a : filter_normalize_and_pad [[[(1 : ℝ)]]] [[1]] = [[[1]]] := by
  simp [filter_normalize_and_pad, processOne, keptRows, normalize_l2, norm_row_one]

lemma fnp_chunk_b : filter_normalize_and_pad [[[(1 : ℝ)], [1]]] [[1, 1]]
    = [[[1], [1]]] := by
  simp [filter_normalize_and_pad, processOne, keptRows, normalize_l2, norm_row_one]

lemma fnp_two_docs : filter_normalize_and_pad [[[(1 : ℝ)], [1]], [[1], [1]]]
    [[1, 0], [1, 1]] = [[[1], [0]], [[1], [1]]] := by
  simp [filter_normalize_and_pad, processOne, keptRows, normalize_l2, norm_row_one]

/-- The document `"a"` alone (batch size 1, first chunk): its processed
chunk tensor is `[1, 1, 1]`. -/
lemma chunkStep_a : chunkStep (cfgDoc 1) tokD fwdOnes false ["a"]
    = .ok [[[(1 : ℝ)]]] := by
  have ht : tokenize (cfgDoc 1) tokD ["a"] false = .ok ([[4]], [[1]], [[0]]) := by rfl
  unfold chunkStep
  rw [ht]
  exact congrArg Except.ok fnp_chunk_a

/-- The document `"b"` alone (batch size 1, second chunk): its processed
chunk tensor is `[1, 2, 1]` — a different token-axis length than the first
chunk's. -/
lemma chunkStep_b : chunkStep (cfgDoc 1) tokD fwdOnes false ["b"]
    = .ok [[[(1 : ℝ)], [1]]] := by
  have ht : tokenize (cfgDoc 1) tokD ["b"] false
      = .ok ([[5, 6]], [[1, 1]], [[0, 0]]) := by rfl
  unfold chunkStep
  rw [ht]
  exact congrArg Except.ok fnp_chunk_b

/-- Both documents in one chunk (batch size ≥ 2): the processed tensor is
`[2, 2, 1]` with the shorter document zero-padded. -/
lemma chunkStep_ab : chunkStep (cfgDoc 32) tokD fwdOnes false ["a", "b"]
    = .ok [[[(1 : ℝ)], [0]], [[1], [1]]] := by
  have ht : tokenize (cfgDoc 32) tokD ["a", "b"] false
      = .ok ([[4, 0], [5, 6]], [[1, 0], [1, 1]], [[0, 0], [0, 0]]) := by rfl
  unfold chunkStep
  rw [ht]
  exact congrArg Except.ok fnp_two_docs

end ConcreteEvaluation

/-- C1 (code bug): `encode` concatenates the per-chunk tensors with
`Tensor::cat` directly, with no equalization of the token axis, so on the
two-document input whose chunks have token lengths 1 and 2 (batch size 1)
the call fails with candle's shape-mismatch error instead of returning a
`[2, 2, 1]` tensor — the claimed zero-row padding before concatenation is
absent from the code. -/
theorem encode_cat_no_equalization_bug :
    encodeSeq (cfgDoc 1) tokD fwdOnes ["a", "b"] false
      = .error (.candle "shape mismatch in cat") := by
  have hco : collectE (chunkStep (cfgDoc 1) tokD fwdOnes false)
      (chunksOf (cfgDoc 1).batch_size ["a", "b"])
      = .ok [[[[(1 : ℝ)]]], [[[1], [1]]]] := by
    have hch : chunksOf (cfgDoc 1).batch_size ["a", "b"] = [["a"], ["b"]] := rfl
    rw [hch]
    simp [collectE, chunkStep_a, chunkStep_b]
  unfold encodeSeq
  rw [hco]
  rfl

/-- C4 (code bug): the Rayon branch and the sequential branch of `encode`
agree on every input (concurrency cannot reorder the chunk outputs), but
chunked encoding does not equal single-chunk encoding: on the same
two-document input, batch size ≥ list length yields the `[2, 2, 1]`
tensor while batch size 1 fails with the shape-mismatch error, because
the token-axis equalization the claim describes is absent from the
code. -/
theorem encode_chunked_vs_single_divergence :
    (∀ (cfg : EncodingConfig) (tok : String → List (ℕ × ℕ))
       (fwd : Mat → Mat → Mat → Except ColbertError T3)
       (sentences : List String) (q : Bool),
       encodePar cfg tok fwd sentences q = encodeSeq cfg tok fwd sentences q)
    ∧ encodeSeq (cfgDoc 32) tokD fwdOnes ["a", "b"] false
        = .ok [[[(1 : ℝ)], [0]], [[1], [1]]]
    ∧ encodeSeq (cfgDoc 1) tokD fwdOnes ["a", "b"] false
        = .error (.candle "shape mismatch in cat") := by
  refine ⟨fun cfg tok fwd sentences q =>
    encodePar_eq_encodeSeq cfg tok fwd sentences q, ?_, ?_⟩
  · have hco : collectE (chunkStep (cfgDoc 32) tokD fwdOnes false)
        (chunksOf (cfgDoc 32).batch_size ["a", "b"])
        = .ok [[[[(1 : ℝ)], [0]], [[1], [1]]]] := by
      have hch : chunksOf (cfgDoc 32).batch_size ["a", "b"] = [["a", "b"]] := rfl
      rw [hch]
      simp [collectE, chunkStep_ab]
    unfold encodeSeq
    rw [hco]
    rfl
  · have hco : collectE (chunkStep (cfgDoc 1) tokD fwdOnes false)
        (chunksOf (cfgDoc 1).batch_size ["a", "b"])
        = .ok [[[[(1 : ℝ)]]], [[[1], [1]]]] := by
      have hch : chunksOf (cfgDoc 1).batch_size ["a", "b"] = [["a"], ["b"]] := rfl
      rw [hch]
      simp [collectE, chunkStep_a, chunkStep_b]
    unfold encodeSeq
    rw [hco]
    rfl

/-- Witness for `filter_normalize_and_pad_matches_spec` on a concrete
two-example batch of width-1 token vectors with a partially masked first
example. -/
theorem filter_normalize_and_pad_matches_spec_witness :
    (∀ ex ∈ ([[[(1 : ℝ)], [0]], [[1], [1]]] : T3), ∀ row ∈ ex,
        row.length = ((([[[(1 : ℝ)], [0]], [[1], [1]]] : T3).headD []).headD []).length)
    ∧ (filter_normalize_and_pad [[[(1 : ℝ)], [0]], [[1], [1]]] [[1, 0], [1, 1]]
        = specDocumentPath [[[(1 : ℝ)], [0]], [[1], [1]]] [[1, 0], [1, 1]]
      ∧ (∀ cfg : EncodingConfig, cfg.do_query_expansion = true →
          ∀ (emb : T3) (mask : List (List ℕ)),
            postProcess cfg true emb mask = normalize_l2_3d emb)
      ∧ (∀ (cfg : EncodingConfig) (q : Bool) (emb : T3) (mask : List (List ℕ)),
          cfg.do_query_expansion = false ∨ q = false →
            postProcess cfg q emb mask = filter_normalize_and_pad emb mask)) :=
  ⟨by simp, filter_normalize_and_pad_matches_spec _ _ (by simp)⟩

/-- C2: for `Q [nq, qt, dim]` and `D [nd, dt, dim]`, `raw_similarity`
produces the `[nq, nd, qt, dt]` tensor whose entry at `(i, j, s, t)` is the
dot product of query `i`'s token vector `s` with document `j`'s token
vector `t`; and `similarity` yields, for every `(i, j)`, the sum over the
query-token axis of the maxima of that raw tensor over the document-token
axis. -/
theorem similarity_maxsim_spec (nq nd qt dt dim : ℕ) (Q D : ℕ → ℕ → ℕ → ℚ)
    (i j s t : ℕ) (hi : i < nq) (hj : j < nd) (hdt : 0 < dt) :
    raw_similarity nq nd dim Q D i j s t = ∑ k ∈ Finset.range dim, Q i s k * D j t k
    ∧ ∃ m : ℕ → ℚ,
        (∀ u, IsGreatest
          {x : ℚ | ∃ v, v < dt ∧ x = raw_similarity nq nd dim Q D i j u v} (m u))
        ∧ similarity nq nd qt dt dim Q D i j = ∑ u ∈ Finset.range qt, m u := by
  have hentry : ∀ u v, raw_similarity nq nd dim Q D i j u v
      = ∑ k ∈ Finset.range dim, Q i u k * D j v k := by
    intro u v
    simp only [raw_similarity, broadcast_matmul, unsqueeze1, unsqueeze0, transpose12]
    rw [bcastIdx_lt hi, bcastIdx_lt hj]
  constructor
  · exact hentry s t
  · refine ⟨fun u => maxdim3 dt (raw_similarity nq nd dim Q D) i j u, fun u => ?_, rfl⟩
    have hne : (List.range dt).map (raw_similarity nq nd dim Q D i j u) ≠ [] := by
      intro hcon
      have hdt0 : dt = 0 := by simpa using congrArg List.length hcon
      omega
    have hg := listMax_isGreatest _ hne
    have hset : {x : ℚ | x ∈ (List.range dt).map (raw_similarity nq nd dim Q D i j u)}
        = {x : ℚ | ∃ v, v < dt ∧ x = raw_similarity nq nd dim Q D i j u v} := by
      ext x
      simp only [Set.mem_setOf_eq, List.mem_map, List.mem_range]
      constructor
      · rintro ⟨v, hv, rfl⟩
        exact ⟨v, hv, rfl⟩
      · rintro ⟨v, hv, rfl⟩
        exact ⟨v, hv, rfl⟩
    rw [hset] at hg
    exact hg

/-- A concrete query embedding tensor `[1, 2, 2]` for the scorer witness. -/
def Qc : ℕ → ℕ → ℕ → ℚ := fun _ s k => if s = 0 then (if k = 0 then 1 else 2) else 3

/-- A concrete document embedding tensor `[2, 2, 2]` for the scorer witness. -/
def Dc : ℕ → ℕ → ℕ → ℚ := fun j t k =>
  if j = 0 then (if t = 0 then 1 else 0) else (if k = t then 2 else 0)

/-- Witness for `similarity_maxsim_spec` at concrete tensors and indices. -/
theorem similarity_maxsim_spec_witness :
    (0 : ℕ) < 1 ∧ (1 : ℕ) < 2 ∧ (0 : ℕ) < 2 ∧
    (raw_similarity 1 2 2 Qc Dc 0 1 0 1 = ∑ k ∈ Finset.range 2, Qc 0 0 k * Dc 1 1 k
     ∧ ∃ m : ℕ → ℚ,
        (∀ u, IsGreatest
          {x : ℚ | ∃ v, v < 2 ∧ x = raw_similarity 1 2 2 Qc Dc 0 1 u v} (m u))
        ∧ similarity 1 2 2 2 2 Qc Dc 0 1 = ∑ u ∈ Finset.range 2, m u) :=
  ⟨by decide, by decide, by decide,
    similarity_maxsim_spec 1 2 2 2 2 Qc Dc 0 1 0 1 (by decide) (by decide) (by decide)⟩
